import Mathlib

/-!
Shallow embedding of the three Euclidean square-distance-matrix
implementations found in
`src/topics/python-hpc/tutorials/euclidean-distance-matrix-numba.jit.ipynb`:
`euclidean_numpy`, `euclidean_numba1` and `euclidean_numba2`.

A NumPy 2-D array is embedded as `Arr2`: an explicit shape (`rows`, `cols`)
together with the row-major entries, rational numbers standing for the
real-valued floats (exact arithmetic).  Out-of-bounds element access and the
shape error raised by `np.dot` on mismatched inner dimensions are modelled by
`Option`.
-/

namespace EDM

/-- A dense 2-D numeric array: its shape and its rows. -/
structure Arr2 where
  rows : Nat
  cols : Nat
  data : List (List ℚ)
  deriving DecidableEq

/-- A well-formed array: the data has `rows` rows, each of length `cols`
(a NumPy 2-D array is rectangular by construction). -/
def IsArr (a : Arr2) : Prop :=
  a.data.length = a.rows ∧ ∀ r ∈ a.data, r.length = a.cols

instance (a : Arr2) : Decidable (IsArr a) :=
  decidable_of_iff (a.data.length = a.rows ∧ ∀ r ∈ a.data, r.length = a.cols) Iff.rfl

/-- Element access `a[i][k]`; `none` when out of bounds. -/
def getE? (a : Arr2) (i k : Nat) : Option ℚ :=
  a.data[i]?.bind fun r => r[k]?

/-- Row access `a[i]`; `none` when out of bounds. -/
def getRow? (a : Arr2) (i : Nat) : Option (List ℚ) :=
  a.data[i]?

/-- Total element access with default `0`.  Used only to state the values of
entries that the theorems' hypotheses keep in bounds. -/
def getE (a : Arr2) (i k : Nat) : ℚ :=
  (a.data[i]?.bind fun r => r[k]?).getD 0

/-- One component of `np.einsum('ij,ij->i', a, a)`: the squared norm of a
row, `Σ_k a_k * a_k`. -/
def sqNorm (r : List ℚ) : ℚ :=
  (r.map fun t => t * t).sum

/-- One entry of `np.dot(x, y.T)`: the dot product of a row of `x` with a
row of `y`. -/
def dotL (r s : List ℚ) : ℚ :=
  (List.zipWith (fun a b => a * b) r s).sum

/-- The notebook's `euclidean_numpy`:
`x2 = np.einsum('ij,ij->i', x, x)[:, np.newaxis]`,
`y2 = np.einsum('ij,ij->i', y, y)[:, np.newaxis].T`,
`xy = np.dot(x, y.T)`, and the result `np.abs(x2 + y2 - 2. * xy)`.
`np.dot` raises when `x.shape[1] != y.shape[1]`, modelled by `none`; the
final broadcast combination of the `(N,1)`, `(1,M)` and `(N,M)` operands is
written entrywise. -/
def euclidean_numpy (x y : Arr2) : Option Arr2 :=
  let x2 := x.data.map sqNorm
  let y2 := y.data.map sqNorm
  if x.cols = y.cols then
    let xy := x.data.map fun xr => y.data.map fun yr => dotL xr yr
    some ⟨x.rows, y.rows,
      List.zipWith (fun xi2 xyr =>
        List.zipWith (fun yj2 xyij => |xi2 + yj2 - 2 * xyij|) y2 xyr) x2 xy⟩
  else none

/-- The notebook's `euclidean_numba1`:
`num_samples, num_feat = x.shape`, a `(num_samples, num_samples)` result
matrix, and for each `(i, j)` the accumulation
`r += (x[i][k] - y[j][k])**2` over `k < num_feat`.  Every element access is
checked; one out of bounds makes the whole call `none`. -/
def euclidean_numba1 (x y : Arr2) : Option Arr2 :=
  let num_samples := x.rows
  let num_feat := x.cols
  ((List.range num_samples).mapM fun i =>
    (List.range num_samples).mapM fun j =>
      (List.range num_feat).foldlM (fun r k => do
        let xik ← getE? x i k
        let yjk ← getE? y j k
        pure (r + (xik - yjk) ^ 2)) (0 : ℚ)).map
    fun d => ⟨num_samples, num_samples, d⟩

/-- NumPy's elementwise subtraction of two 1-D arrays, with broadcasting of
a length-1 operand; mismatched lengths otherwise raise, modelled by
`none`. -/
def npSub (a b : List ℚ) : Option (List ℚ) :=
  if a.length = b.length then some (List.zipWith (fun s t => s - t) a b)
  else if a.length = 1 then some (b.map fun t => a.headD 0 - t)
  else if b.length = 1 then some (a.map fun s => s - b.headD 0)
  else none

/-- The notebook's `euclidean_numba2`:
`num_samples, num_feat = x.shape`, a `(num_samples, num_samples)` result
matrix, and for each `(i, j)` the row expression
`((x[i] - y[j])**2).sum()`. -/
def euclidean_numba2 (x y : Arr2) : Option Arr2 :=
  let num_samples := x.rows
  ((List.range num_samples).mapM fun i =>
    (List.range num_samples).mapM fun j => do
      let xi ← getRow? x i
      let yj ← getRow? y j
      let d ← npSub xi yj
      pure ((d.map fun t => t ^ 2).sum)).map
    fun m => ⟨num_samples, num_samples, m⟩

/-- One entry of a possibly failed computation. -/
def computeEntry? (r : Option Arr2) (i j : Nat) : Option ℚ :=
  r.bind fun m => getE? m i j

/-- The specified value of entry `(i, j)`: the squared Euclidean norm of the
difference of row `i` of `x` and row `j` of `y`,
`Σ_k (x[i][k] - y[j][k])²` over the `x.cols` features. -/
def sqDistSpec (x y : Arr2) (i j : Nat) : ℚ :=
  ((List.range x.cols).map fun k => (getE x i k - getE y j k) ^ 2).sum

/-- The `(x.rows, x.rows)` matrix of specified entries: the common value of
the two loop implementations on in-bounds inputs. -/
def distMat (x y : Arr2) : Arr2 :=
  ⟨x.rows, x.rows,
    (List.range x.rows).map fun i =>
      (List.range x.rows).map fun j => sqDistSpec x y i j⟩

/-! Monadic evaluation helpers for the `Option`-valued loops. -/

theorem mapM_eq_some {α β : Type} (f : α → Option β) (g : α → β) :
    ∀ l : List α, (∀ a ∈ l, f a = some (g a)) → l.mapM f = some (l.map g) := by
  intro l
  induction l with
  | nil => intro _; rfl
  | cons a t ih =>
    intro h
    rw [List.mapM_cons, h a (List.mem_cons_self a t),
      ih fun b hb => h b (List.mem_cons_of_mem _ hb)]
    rfl

theorem mapM_eq_none {α β : Type} (f : α → Option β) :
    ∀ l : List α, (∃ a ∈ l, f a = none) → l.mapM f = none := by
  intro l
  induction l with
  | nil => rintro ⟨a, ha, -⟩; exact absurd ha (List.not_mem_nil a)
  | cons a t ih =>
    rintro ⟨b, hb, hfb⟩
    rw [List.mapM_cons]
    rcases List.mem_cons.mp hb with rfl | hbt
    · rw [hfb]; rfl
    · cases hfa : f a with
      | none => rfl
      | some v => rw [ih ⟨b, hbt, hfb⟩]; rfl

theorem foldlM_eq_some {α β : Type} (f : β → α → Option β) (g : β → α → β) :
    ∀ (l : List α) (c : β), (∀ b, ∀ a ∈ l, f b a = some (g b a)) →
      l.foldlM f c = some (l.foldl g c) := by
  intro l
  induction l with
  | nil => intro c _; rfl
  | cons a t ih =>
    intro c h
    rw [List.foldlM_cons, h c a (List.mem_cons_self a t)]
    show t.foldlM f (g c a) = _
    rw [ih (g c a) fun b e he => h b e (List.mem_cons_of_mem _ he)]
    rfl

theorem foldlM_none_head {α β : Type} (f : β → α → Option β) (c : β) (a : α)
    (t : List α) (h : f c a = none) : (a :: t).foldlM f c = none := by
  rw [List.foldlM_cons, h]
  rfl

theorem foldl_add_map (h : Nat → ℚ) :
    ∀ (l : List Nat) (c : ℚ), l.foldl (fun r k => r + h k) c = c + (l.map h).sum := by
  intro l
  induction l with
  | nil => intro c; simp
  | cons a t ih => intro c; simp [ih, add_assoc]

/-! Element and row access on well-formed arrays. -/

/-- Row `i` of the data, with default `[]`. -/
def rowD (a : Arr2) (i : Nat) : List ℚ :=
  a.data.getD i []

theorem row_eq_some {a : Arr2} (ha : IsArr a) {i : Nat} (hi : i < a.rows) :
    a.data[i]? = some (rowD a i) := by
  have hi' : i < a.data.length := by rw [ha.1]; exact hi
  rw [List.getElem?_eq_getElem hi', rowD, List.getD_eq_getElem?_getD,
    List.getElem?_eq_getElem hi']
  rfl

theorem rowD_length {a : Arr2} (ha : IsArr a) {i : Nat} (hi : i < a.rows) :
    (rowD a i).length = a.cols := by
  have hi' : i < a.data.length := by rw [ha.1]; exact hi
  have hm : a.data.getD i [] = a.data[i] := by
    rw [List.getD_eq_getElem?_getD, List.getElem?_eq_getElem hi']
    rfl
  rw [rowD, hm]
  exact ha.2 _ (a.data.getElem_mem hi')

theorem row_eq_none {a : Arr2} (ha : IsArr a) {i : Nat} (hi : a.rows ≤ i) :
    a.data[i]? = none :=
  List.getElem?_eq_none (by rw [ha.1]; exact hi)

theorem getE_eq_rowD {a : Arr2} (ha : IsArr a) {i : Nat} (hi : i < a.rows)
    (k : Nat) : getE a i k = (rowD a i).getD k 0 := by
  rw [getE, row_eq_some ha hi, Option.some_bind, List.getD_eq_getElem?_getD]

theorem getE?_eq_some {a : Arr2} (ha : IsArr a) {i k : Nat}
    (hi : i < a.rows) (hk : k < a.cols) : getE? a i k = some (getE a i k) := by
  have hk' : k < (rowD a i).length := by rw [rowD_length ha hi]; exact hk
  rw [getE?, row_eq_some ha hi, Option.some_bind, List.getElem?_eq_getElem hk',
    getE_eq_rowD ha hi, List.getD_eq_getElem?_getD, List.getElem?_eq_getElem hk']
  rfl

theorem getE?_none_row {a : Arr2} (ha : IsArr a) {i : Nat} (hi : a.rows ≤ i)
    (k : Nat) : getE? a i k = none := by
  rw [getE?, row_eq_none ha hi]
  rfl

/-! Per-row algebra: the squared differences, their expansion, and their
non-negativity. -/

theorem zip_sq_sum_nonneg (a : List ℚ) :
    ∀ b : List ℚ, 0 ≤ (List.zipWith (fun s t => (s - t) ^ 2) a b).sum := by
  induction a with
  | nil => intro b; simp
  | cons s a' ih =>
    intro b
    cases b with
    | nil => simp
    | cons t b' =>
      rw [List.zipWith_cons_cons, List.sum_cons]
      exact add_nonneg (sq_nonneg _) (ih b')

theorem sq_expand (a : List ℚ) :
    ∀ b : List ℚ, a.length = b.length →
      (List.zipWith (fun s t => (s - t) ^ 2) a b).sum
        = sqNorm a + sqNorm b - 2 * dotL a b := by
  induction a with
  | nil =>
    intro b hb
    rw [List.length_eq_zero.mp hb.symm]
    simp [sqNorm, dotL]
  | cons s a' ih =>
    intro b hb
    cases b with
    | nil => simp at hb
    | cons t b' =>
      rw [List.zipWith_cons_cons, List.sum_cons, ih b' (by simpa using hb)]
      simp only [sqNorm, dotL, List.map_cons, List.sum_cons, List.zipWith_cons_cons]
      ring

theorem abs_expand (a b : List ℚ) (h : a.length = b.length) :
    |sqNorm a + sqNorm b - 2 * dotL a b|
      = (List.zipWith (fun s t => (s - t) ^ 2) a b).sum := by
  rw [← sq_expand a b h]
  exact abs_of_nonneg (zip_sq_sum_nonneg a b)

theorem zip_sq_sum_eq (a : List ℚ) :
    ∀ (b : List ℚ) (D : Nat), a.length = D → b.length = D →
      (List.zipWith (fun s t => (s - t) ^ 2) a b).sum
        = ((List.range D).map fun k => (a.getD k 0 - b.getD k 0) ^ 2).sum := by
  induction a with
  | nil =>
    intro b D ha hb
    have hD : D = 0 := by simpa using ha.symm
    subst hD
    simp
  | cons s a' ih =>
    intro b D ha hb
    cases b with
    | nil => rw [List.length_nil] at hb; rw [← hb] at ha; simp at ha
    | cons t b' =>
      cases D with
      | zero => simp at ha
      | succ n =>
        rw [List.zipWith_cons_cons, List.sum_cons,
          ih b' n (by simpa using ha) (by simpa using hb),
          List.range_succ_eq_map, List.map_cons, List.map_map, List.sum_cons]
        congr 1

theorem map_eq_range_map {α β : Type} (F : α → β) (d : α) :
    ∀ l : List α, l.map F = (List.range l.length).map fun i => F (l.getD i d) := by
  intro l
  induction l with
  | nil => rfl
  | cons a t ih =>
    rw [List.map_cons, List.length_cons, List.range_succ_eq_map, List.map_cons,
      List.map_map, ih]
    simp [Function.comp]

theorem rows_zip_sum_eq {x y : Arr2} (hx : IsArr x) (hy : IsArr y)
    (hc : x.cols = y.cols) {i j : Nat} (hi : i < x.rows) (hj : j < y.rows) :
    (List.zipWith (fun s t => (s - t) ^ 2) (rowD x i) (rowD y j)).sum
      = sqDistSpec x y i j := by
  rw [zip_sq_sum_eq (rowD x i) (rowD y j) x.cols (rowD_length hx hi)
    (by rw [rowD_length hy hj, hc]), sqDistSpec]
  exact congrArg List.sum (List.map_congr_left fun k _ => by
    rw [getE_eq_rowD hx hi, getE_eq_rowD hy hj])

/-! Characterizations of the three implementations on well-formed inputs. -/

theorem numba1_eq_distMat {x y : Arr2} (hx : IsArr x) (hy : IsArr y)
    (hc : x.cols ≤ y.cols) (hr : x.rows ≤ y.rows) :
    euclidean_numba1 x y = some (distMat x y) := by
  have hbody : ∀ i < x.rows, ∀ j < x.rows,
      ((List.range x.cols).foldlM (fun r k => do
        let xik ← getE? x i k
        let yjk ← getE? y j k
        pure (r + (xik - yjk) ^ 2)) (0 : ℚ)) = some (sqDistSpec x y i j) := by
    intro i hi j hj
    have hstep : ∀ (b : ℚ), ∀ k ∈ List.range x.cols,
        (do
          let xik ← getE? x i k
          let yjk ← getE? y j k
          pure (b + (xik - yjk) ^ 2) : Option ℚ)
          = some (b + (getE x i k - getE y j k) ^ 2) := by
      intro b k hk
      rw [List.mem_range] at hk
      rw [getE?_eq_some hx hi hk,
        getE?_eq_some hy (lt_of_lt_of_le hj hr) (lt_of_lt_of_le hk hc)]
      rfl
    rw [foldlM_eq_some _ (fun b k => b + (getE x i k - getE y j k) ^ 2) _ _ hstep,
      foldl_add_map, zero_add, sqDistSpec]
  simp only [euclidean_numba1]
  rw [mapM_eq_some _ (fun i => (List.range x.rows).map fun j => sqDistSpec x y i j) _
    fun i hi => mapM_eq_some _ _ _ fun j hj =>
      hbody i (List.mem_range.mp hi) j (List.mem_range.mp hj)]
  rfl

theorem numba2_eq_distMat {x y : Arr2} (hx : IsArr x) (hy : IsArr y)
    (hc : x.cols = y.cols) (hr : x.rows ≤ y.rows) :
    euclidean_numba2 x y = some (distMat x y) := by
  have hbody : ∀ i < x.rows, ∀ j < x.rows,
      (do
        let xi ← getRow? x i
        let yj ← getRow? y j
        let d ← npSub xi yj
        pure ((d.map fun t => t ^ 2).sum) : Option ℚ) = some (sqDistSpec x y i j) := by
    intro i hi j hj
    have hj' : j < y.rows := lt_of_lt_of_le hj hr
    simp only [getRow?]
    rw [row_eq_some hx hi, row_eq_some hy hj']
    show (npSub (rowD x i) (rowD y j)).bind _ = _
    rw [npSub, if_pos (by rw [rowD_length hx hi, rowD_length hy hj', hc])]
    show some ((List.zipWith (fun s t => s - t) (rowD x i) (rowD y j)).map
      (fun t => t ^ 2)).sum = _
    rw [List.map_zipWith, rows_zip_sum_eq hx hy hc hi hj']
  simp only [euclidean_numba2]
  rw [mapM_eq_some _ (fun i => (List.range x.rows).map fun j => sqDistSpec x y i j) _
    fun i hi => mapM_eq_some _ _ _ fun j hj =>
      hbody i (List.mem_range.mp hi) j (List.mem_range.mp hj)]
  rfl

theorem numpy_eq_canon {x y : Arr2} (hx : IsArr x) (hy : IsArr y)
    (hc : x.cols = y.cols) :
    euclidean_numpy x y = some ⟨x.rows, y.rows,
      (List.range x.rows).map fun i =>
        (List.range y.rows).map fun j => sqDistSpec x y i j⟩ := by
  simp only [euclidean_numpy, if_pos hc]
  congr 1
  congr 1
  rw [List.zipWith_map (g := sqNorm) (h := fun xr => y.data.map fun yr => dotL xr yr),
    List.zipWith_same]
  have hrow : ∀ xr ∈ x.data,
      List.zipWith (fun yj2 xyij => |sqNorm xr + yj2 - 2 * xyij|)
        (y.data.map sqNorm) (y.data.map fun yr => dotL xr yr)
        = y.data.map fun yr => |sqNorm xr + sqNorm yr - 2 * dotL xr yr| := by
    intro xr _
    rw [List.zipWith_map (g := sqNorm) (h := fun yr => dotL xr yr), List.zipWith_same]
  rw [List.map_congr_left hrow,
    map_eq_range_map (fun xr => y.data.map fun yr => |sqNorm xr + sqNorm yr - 2 * dotL xr yr|) [],
    hx.1]
  refine List.map_congr_left fun i hi => ?_
  rw [List.mem_range] at hi
  rw [show (x.data.getD i [] : List ℚ) = rowD x i from rfl,
    map_eq_range_map (fun yr => |sqNorm (rowD x i) + sqNorm yr - 2 * dotL (rowD x i) yr|) [],
    hy.1]
  refine List.map_congr_left fun j hj => ?_
  rw [List.mem_range] at hj
  rw [show (y.data.getD j [] : List ℚ) = rowD y j from rfl,
    abs_expand _ _ (by rw [rowD_length hx hi, rowD_length hy hj, hc]),
    rows_zip_sum_eq hx hy hc hi hj]

/-! Failure cases: too few rows of `y`, and `np.dot`'s shape check. -/

theorem numba1_eq_none {x y : Arr2} (hx : IsArr x) (hy : IsArr y)
    (hr : y.rows < x.rows) (hc : 1 ≤ x.cols) : euclidean_numba1 x y = none := by
  have h0 : 0 < x.rows := Nat.lt_of_le_of_lt (Nat.zero_le _) hr
  obtain ⟨n, hn⟩ : ∃ n, x.cols = n + 1 := ⟨x.cols - 1, by omega⟩
  have hbody : ((List.range x.cols).foldlM (fun r k => do
      let xik ← getE? x 0 k
      let yjk ← getE? y y.rows k
      pure (r + (xik - yjk) ^ 2)) (0 : ℚ)) = none := by
    rw [hn, List.range_succ_eq_map]
    refine foldlM_none_head _ _ _ _ ?_
    rw [getE?_eq_some hx h0 (by omega), getE?_none_row hy (le_refl _)]
    rfl
  simp only [euclidean_numba1]
  rw [mapM_eq_none _ _ ⟨0, List.mem_range.mpr h0,
    mapM_eq_none _ _ ⟨y.rows, List.mem_range.mpr hr, hbody⟩⟩]
  rfl

theorem numba2_eq_none {x y : Arr2} (hx : IsArr x) (hy : IsArr y)
    (hr : y.rows < x.rows) : euclidean_numba2 x y = none := by
  have h0 : 0 < x.rows := Nat.lt_of_le_of_lt (Nat.zero_le _) hr
  have hbody : (do
      let xi ← getRow? x 0
      let yj ← getRow? y y.rows
      let d ← npSub xi yj
      pure ((d.map fun t => t ^ 2).sum) : Option ℚ) = none := by
    simp only [getRow?]
    rw [row_eq_some hx h0, row_eq_none hy (le_refl _)]
    rfl
  simp only [euclidean_numba2]
  rw [mapM_eq_none _ _ ⟨0, List.mem_range.mpr h0,
    mapM_eq_none _ _ ⟨y.rows, List.mem_range.mpr hr, hbody⟩⟩]
  rfl

theorem numpy_none_iff (x y : Arr2) :
    euclidean_numpy x y = none ↔ x.cols ≠ y.cols := by
  by_cases h : x.cols = y.cols
  · simp [euclidean_numpy, h]
  · simp [euclidean_numpy, h]

/-! Entry lookup in the canonical matrix. -/

theorem getE?_distMat (x y : Arr2) (i j : Nat) :
    getE? (distMat x y) i j
      = if i < x.rows ∧ j < x.rows then some (sqDistSpec x y i j) else none := by
  rw [getE?, distMat]
  by_cases hi : i < x.rows
  · rw [show ((⟨x.rows, x.rows, (List.range x.rows).map fun i =>
        (List.range x.rows).map fun j => sqDistSpec x y i j⟩ : Arr2)).data
        = (List.range x.rows).map fun i =>
          (List.range x.rows).map fun j => sqDistSpec x y i j from rfl,
      List.getElem?_map, List.getElem?_range hi]
    simp only [Option.map_some', Option.some_bind]
    by_cases hj : j < x.rows
    · rw [List.getElem?_map, List.getElem?_range hj, if_pos ⟨hi, hj⟩]
      rfl
    · rw [List.getElem?_map, List.getElem?_eq_none (by simpa using hj),
        if_neg fun hcon => hj hcon.2]
      rfl
  · rw [show ((⟨x.rows, x.rows, (List.range x.rows).map fun i =>
        (List.range x.rows).map fun j => sqDistSpec x y i j⟩ : Arr2)).data
        = (List.range x.rows).map fun i =>
          (List.range x.rows).map fun j => sqDistSpec x y i j from rfl,
      List.getElem?_map, List.getElem?_eq_none (by simpa using hi),
      if_neg fun hcon => hi hcon.1]
    rfl

/-! Structural non-negativity: every value an implementation can place in the
result is a sum of squares (`euclidean_numba1`) or an absolute value
(`euclidean_numpy`). -/

theorem mem_of_mapM_eq_some {α β : Type} (f : α → Option β) :
    ∀ (l : List α) (out : List β), l.mapM f = some out →
      ∀ b ∈ out, ∃ a ∈ l, f a = some b := by
  intro l
  induction l with
  | nil =>
    intro out h b hb
    cases h
    exact absurd hb (List.not_mem_nil b)
  | cons a t ih =>
    intro out h b hb
    rw [List.mapM_cons] at h
    cases hfa : f a with
    | none => rw [hfa] at h; simp at h
    | some v =>
      rw [hfa] at h
      cases hmt : t.mapM f with
      | none => rw [hmt] at h; simp at h
      | some vs =>
        rw [hmt] at h
        simp only [Option.bind_eq_bind, Option.some_bind] at h
        cases h
        rcases List.mem_cons.mp hb with rfl | hbs
        · exact ⟨a, List.mem_cons_self a t, hfa⟩
        · obtain ⟨e, he, hfe⟩ := ih vs hmt b hbs
          exact ⟨e, List.mem_cons_of_mem _ he, hfe⟩

theorem foldlM_induct {α β : Type} (f : β → α → Option β) (P : β → Prop)
    (hstep : ∀ b a b', P b → f b a = some b' → P b') :
    ∀ (l : List α) (c v : β), P c → l.foldlM f c = some v → P v := by
  intro l
  induction l with
  | nil =>
    intro c v hc h
    cases h
    exact hc
  | cons a t ih =>
    intro c v hc h
    rw [List.foldlM_cons] at h
    cases hfa : f c a with
    | none => rw [hfa] at h; simp at h
    | some b' =>
      rw [hfa] at h
      simp only [Option.bind_eq_bind, Option.some_bind] at h
      exact ih b' v (hstep c a b' hc hfa) h

theorem exists_of_mem_zipWith {α β γ : Type} (f : α → β → γ) :
    ∀ (l1 : List α) (l2 : List β) (c : γ), c ∈ List.zipWith f l1 l2 →
      ∃ a b, c = f a b := by
  intro l1
  induction l1 with
  | nil => intro l2 c hc; simp at hc
  | cons a t ih =>
    intro l2 c hc
    cases l2 with
    | nil => simp at hc
    | cons b t2 =>
      rw [List.zipWith_cons_cons] at hc
      rcases List.mem_cons.mp hc with rfl | hc'
      · exact ⟨a, b, rfl⟩
      · exact ih t2 c hc'

theorem mem_of_getE?_eq_some {m : Arr2} {i j : Nat} {q : ℚ}
    (h : getE? m i j = some q) : ∃ r ∈ m.data, q ∈ r := by
  rw [getE?] at h
  cases hr : m.data[i]? with
  | none => rw [hr] at h; simp at h
  | some r =>
    rw [hr, Option.some_bind] at h
    exact ⟨r, List.getElem?_mem hr, List.getElem?_mem h⟩

theorem numba1_entry_nonneg (x y : Arr2) (i j : Nat) (q : ℚ)
    (h : computeEntry? (euclidean_numba1 x y) i j = some q) : 0 ≤ q := by
  rw [computeEntry?] at h
  simp only [euclidean_numba1] at h
  cases hmm : (List.range x.rows).mapM fun i =>
    (List.range x.rows).mapM fun j =>
      (List.range x.cols).foldlM (fun r k => do
        let xik ← getE? x i k
        let yjk ← getE? y j k
        pure (r + (xik - yjk) ^ 2)) (0 : ℚ) with
  | none => rw [hmm] at h; simp at h
  | some d =>
    rw [hmm] at h
    simp only [Option.map_some', Option.some_bind] at h
    obtain ⟨r, hrd, hqr⟩ := mem_of_getE?_eq_some h
    obtain ⟨i', -, hrow⟩ := mem_of_mapM_eq_some _ _ _ hmm r hrd
    obtain ⟨j', -, hcell⟩ := mem_of_mapM_eq_some _ _ _ hrow q hqr
    refine foldlM_induct _ (fun b => 0 ≤ b) ?_ _ _ _ (le_refl 0) hcell
    intro b a b' hb hsome
    rcases Option.bind_eq_some.mp hsome with ⟨xik, -, h2⟩
    rcases Option.bind_eq_some.mp h2 with ⟨yjk, -, h3⟩
    cases h3
    exact add_nonneg hb (sq_nonneg _)

theorem numpy_entry_nonneg (x y : Arr2) (i j : Nat) (q : ℚ)
    (h : computeEntry? (euclidean_numpy x y) i j = some q) : 0 ≤ q := by
  rw [computeEntry?] at h
  by_cases hc : x.cols = y.cols
  · simp only [euclidean_numpy, if_pos hc, Option.some_bind] at h
    obtain ⟨r, hrd, hqr⟩ := mem_of_getE?_eq_some h
    obtain ⟨u, v, hru⟩ := exists_of_mem_zipWith _ _ _ _ hrd
    subst hru
    obtain ⟨w, z, hqw⟩ := exists_of_mem_zipWith _ _ _ _ hqr
    subst hqw
    exact abs_nonneg _
  · simp only [euclidean_numpy, if_neg hc] at h
    simp at h

/-! Small spec-level identities used by the claims. -/

theorem sqDistSpec_self (x : Arr2) (i : Nat) : sqDistSpec x x i i = 0 := by
  rw [sqDistSpec]
  have h : ∀ k ∈ List.range x.cols, (getE x i k - getE x i k) ^ 2 = (0 : ℚ) :=
    fun k _ => by ring
  rw [List.map_congr_left h]
  simp

theorem sqDistSpec_symm {x y : Arr2} (hc : x.cols = y.cols) (i j : Nat) :
    sqDistSpec x y i j = sqDistSpec y x j i := by
  rw [sqDistSpec, sqDistSpec, hc]
  exact congrArg List.sum (List.map_congr_left fun k _ => by ring)

theorem getE_take (y : Arr2) {n j : Nat} (hj : j < n) (c k : Nat) :
    getE ⟨n, c, y.data.take n⟩ j k = getE y j k := by
  simp only [getE]
  rw [List.getElem?_take_of_lt hj]

theorem sqDistSpec_take (x y : Arr2) {j : Nat} (hj : j < x.rows) (i : Nat) :
    sqDistSpec x ⟨x.rows, y.cols, y.data.take x.rows⟩ i j = sqDistSpec x y i j := by
  rw [sqDistSpec, sqDistSpec]
  exact congrArg List.sum (List.map_congr_left fun k _ => by
    rw [getE_take y hj])

/-! Claims. -/

/-- C1, counterexample: on X with 1 row and Y with 2 rows (equal feature
dimension 1), `euclidean_numba1` returns a matrix of shape (1, 1), not the
claimed (rows(X), rows(Y)) = (1, 2): the output shape is taken from
`x.shape` alone. -/
theorem C1_counterexample :
    (euclidean_numba1 ⟨1, 1, [[0]]⟩ ⟨2, 1, [[1], [2]]⟩).map
      (fun m => (m.rows, m.cols)) ≠ some (1, 2) := by
  decide

/-- C1 (amended): for rectangular inputs of equal feature dimension with
rows(Y) ≥ rows(X), both `euclidean_numba1` and `euclidean_numba2` return,
without error, a matrix of shape (rows(X), rows(X)) — both dimensions taken
from X alone; in particular, when X has 0 rows the result is the empty
(0, 0) matrix, returned without error. -/
theorem C1_amended_shape (x y : Arr2) (hx : IsArr x) (hy : IsArr y)
    (hc : x.cols = y.cols) (hr : x.rows ≤ y.rows) :
    (euclidean_numba1 x y).map (fun m => (m.rows, m.cols)) = some (x.rows, x.rows)
    ∧ (euclidean_numba2 x y).map (fun m => (m.rows, m.cols)) = some (x.rows, x.rows) := by
  rw [numba1_eq_distMat hx hy (le_of_eq hc) hr, numba2_eq_distMat hx hy hc hr]
  exact ⟨rfl, rfl⟩

/-- C1, witness at the boundary scenario: X with 0 rows and Y with 3 rows,
D = 5; the result shape is (0, 0) and there is no error. -/
theorem C1_witness :
    (euclidean_numba1 ⟨0, 5, []⟩
        ⟨3, 5, [[1, 2, 3, 4, 5], [0, 0, 0, 0, 0], [2, 2, 2, 2, 2]]⟩).map
      (fun m => (m.rows, m.cols)) = some (0, 0)
    ∧ (euclidean_numba2 ⟨0, 5, []⟩
        ⟨3, 5, [[1, 2, 3, 4, 5], [0, 0, 0, 0, 0], [2, 2, 2, 2, 2]]⟩).map
      (fun m => (m.rows, m.cols)) = some (0, 0) :=
  C1_amended_shape _ _ (by decide) (by decide) (by decide) (by decide)

/-- C2, counterexample: `euclidean_numba1` on X with D = 4 and Y with D = 5
does not fail at all — it returns a result, so a mismatched feature
dimension does not surface a ShapeMismatch error from this implementation. -/
theorem C2_counterexample :
    euclidean_numba1 ⟨1, 4, [[1, 2, 3, 4]]⟩ ⟨1, 5, [[1, 2, 3, 4, 5]]⟩ ≠ none := by
  decide

/-- C2 (amended): `euclidean_numpy` fails exactly when the feature
dimensions of X and Y differ (the `np.dot` shape error), and that is its
only error condition; `euclidean_numba1`, however, performs no shape check:
whenever Y has at least as many rows and at least as many columns as X it
returns a result without error, even when the feature dimensions differ. -/
theorem C2_amended (x y : Arr2) (hx : IsArr x) (hy : IsArr y)
    (hr : x.rows ≤ y.rows) (hc : x.cols ≤ y.cols) :
    (euclidean_numpy x y = none ↔ x.cols ≠ y.cols)
    ∧ (euclidean_numba1 x y).isSome := by
  refine ⟨numpy_none_iff x y, ?_⟩
  rw [numba1_eq_distMat hx hy hc hr]
  rfl

/-- C2, witness: X of shape (1, 4) and Y of shape (2, 5): `euclidean_numpy`
fails (D mismatch) while `euclidean_numba1` succeeds. -/
theorem C2_witness :
    (euclidean_numpy ⟨1, 4, [[1, 2, 3, 4]]⟩ ⟨2, 5, [[0, 1, 0, 1, 0], [3, 4, 3, 4, 3]]⟩
        = none ↔ (4 : Nat) ≠ 5)
    ∧ (euclidean_numba1 ⟨1, 4, [[1, 2, 3, 4]]⟩
        ⟨2, 5, [[0, 1, 0, 1, 0], [3, 4, 3, 4, 3]]⟩).isSome :=
  C2_amended _ _ (by decide) (by decide) (by decide) (by decide)

/-- C3, counterexample: X with 1 row, Y with 2 rows, D = 1; the claim
requires entry (0, 1) (i < N = 1, j < M = 2) to hold the squared distance of
X row 0 and Y row 1, but `euclidean_numba1` produces a (1, 1) matrix with no
such entry. -/
theorem C3_counterexample :
    computeEntry? (euclidean_numba1 ⟨1, 1, [[0]]⟩ ⟨2, 1, [[1], [2]]⟩) 0 1
      ≠ some (sqDistSpec ⟨1, 1, [[0]]⟩ ⟨2, 1, [[1], [2]]⟩ 0 1) := by
  decide

/-- C3 (amended): for rectangular inputs of equal feature dimension with
rows(Y) ≥ rows(X), and indices i < rows(X) and j < rows(X) (not j < rows(Y):
the column range of the result is rows(X)), entry (i, j) of
`euclidean_numba1` is `Σ_k (X[i][k] − Y[j][k])²`, the squared Euclidean norm
of the difference of row i of X and row j of Y. -/
theorem C3_amended (x y : Arr2) (hx : IsArr x) (hy : IsArr y)
    (hc : x.cols = y.cols) (hr : x.rows ≤ y.rows) {i j : Nat}
    (hi : i < x.rows) (hj : j < x.rows) :
    computeEntry? (euclidean_numba1 x y) i j = some (sqDistSpec x y i j) := by
  rw [computeEntry?, numba1_eq_distMat hx hy (le_of_eq hc) hr, Option.some_bind,
    getE?_distMat, if_pos ⟨hi, hj⟩]

/-- C3, witness at the spec's concrete scenario X = [[1,2,3]], Y = [[4,5,6]]:
entry (0, 0) equals the specified squared distance. -/
theorem C3_witness :
    computeEntry? (euclidean_numba1 ⟨1, 3, [[1, 2, 3]]⟩ ⟨1, 3, [[4, 5, 6]]⟩) 0 0
      = some (sqDistSpec ⟨1, 3, [[1, 2, 3]]⟩ ⟨1, 3, [[4, 5, 6]]⟩ 0 0) :=
  C3_amended _ _ (by decide) (by decide) (by decide) (by decide) (by decide) (by decide)

/-- C4, counterexample: X with 1 row, Y with 2 rows, equal feature dimension:
`euclidean_numpy` returns a (1, 2) matrix while `euclidean_numba1` returns a
(1, 1) matrix, so the two strategies do not produce the same result on every
valid pair. -/
theorem C4_counterexample :
    euclidean_numpy ⟨1, 1, [[0]]⟩ ⟨2, 1, [[0], [1]]⟩
      ≠ euclidean_numba1 ⟨1, 1, [[0]]⟩ ⟨2, 1, [[0], [1]]⟩ := by
  decide

/-- C4 (amended): for rectangular inputs of equal feature dimension and
equal row counts, the algebraic-expansion strategy `euclidean_numpy` and the
direct accumulation strategy `euclidean_numba1` agree exactly over the exact
(rational) arithmetic of this embedding, error behaviour included. -/
theorem C4_amended (x y : Arr2) (hx : IsArr x) (hy : IsArr y)
    (hc : x.cols = y.cols) (hr : y.rows = x.rows) :
    euclidean_numpy x y = euclidean_numba1 x y := by
  rw [numpy_eq_canon hx hy hc,
    numba1_eq_distMat hx hy (le_of_eq hc) (le_of_eq hr.symm), distMat, hr]

/-- C4, witness at X = Y = [[0,0],[3,4]]. -/
theorem C4_witness :
    euclidean_numpy ⟨2, 2, [[0, 0], [3, 4]]⟩ ⟨2, 2, [[0, 0], [3, 4]]⟩
      = euclidean_numba1 ⟨2, 2, [[0, 0], [3, 4]]⟩ ⟨2, 2, [[0, 0], [3, 4]]⟩ :=
  C4_amended _ _ (by decide) (by decide) (by decide) (by decide)

/-- C5, counterexample: with D = 0 and Y having fewer rows than X,
`euclidean_numba2` fails (it reads row Y[j] out of bounds) while
`euclidean_numba1` succeeds (its feature loop is empty and never touches Y),
so the two loop variants are not the same function on every valid pair. -/
theorem C5_counterexample :
    euclidean_numba2 ⟨2, 0, [[], []]⟩ ⟨1, 0, [[]]⟩
      ≠ euclidean_numba1 ⟨2, 0, [[], []]⟩ ⟨1, 0, [[]]⟩ := by
  decide

/-- C5 (amended): for rectangular inputs of equal feature dimension D,
whenever D ≥ 1 or rows(Y) ≥ rows(X), `euclidean_numba2` computes exactly the
same function as `euclidean_numba1` — the same result on success and the
same error behaviour; only the corner D = 0 with rows(Y) < rows(X)
separates them. -/
theorem C5_amended (x y : Arr2) (hx : IsArr x) (hy : IsArr y)
    (hc : x.cols = y.cols) (hd : 1 ≤ x.cols ∨ x.rows ≤ y.rows) :
    euclidean_numba2 x y = euclidean_numba1 x y := by
  rcases Nat.lt_or_ge y.rows x.rows with hr | hr
  · rcases hd with hd | hd
    · rw [numba2_eq_none hx hy hr, numba1_eq_none hx hy hr hd]
    · exact absurd hd (Nat.not_le.mpr hr)
  · rw [numba2_eq_distMat hx hy hc hr, numba1_eq_distMat hx hy (le_of_eq hc) hr]

/-- C5, witness: a 2-sample, 1-sample pair with D = 2, where the variants
agree despite rows(Y) < rows(X) failing both. -/
theorem C5_witness :
    euclidean_numba2 ⟨2, 2, [[0, 0], [3, 4]]⟩ ⟨1, 2, [[1, 1]]⟩
      = euclidean_numba1 ⟨2, 2, [[0, 0], [3, 4]]⟩ ⟨1, 2, [[1, 1]]⟩ :=
  C5_amended _ _ (by decide) (by decide) (by decide) (by decide)

/-- C6: every entry either implementation can return is non-negative, and
exactly so (not merely within tolerance): each `euclidean_numba1` entry is a
sum of squares and each `euclidean_numpy` entry is an absolute value. -/
theorem C6_nonneg (x y : Arr2) (i j : Nat) (q : ℚ) :
    (computeEntry? (euclidean_numba1 x y) i j = some q → 0 ≤ q)
    ∧ (computeEntry? (euclidean_numpy x y) i j = some q → 0 ≤ q) :=
  ⟨numba1_entry_nonneg x y i j q, numpy_entry_nonneg x y i j q⟩

/-- C6, witness at the spec's scenario X = Y = [[0,0],[3,4]], entry (0, 1),
value 25. -/
theorem C6_witness :
    (computeEntry? (euclidean_numba1 ⟨2, 2, [[0, 0], [3, 4]]⟩
        ⟨2, 2, [[0, 0], [3, 4]]⟩) 0 1 = some 25 → (0 : ℚ) ≤ 25)
    ∧ (computeEntry? (euclidean_numpy ⟨2, 2, [[0, 0], [3, 4]]⟩
        ⟨2, 2, [[0, 0], [3, 4]]⟩) 0 1 = some 25 → (0 : ℚ) ≤ 25) :=
  C6_nonneg _ _ 0 1 25

/-- C7, counterexample: X with 1 row and Y with 2 rows (equal D): entry
(0, 0) of compute(X, Y) exists, but compute(Y, X) fails outright (it indexes
X[1], out of bounds), so the swap-and-transpose symmetry does not hold on
every valid pair. -/
theorem C7_counterexample :
    computeEntry? (euclidean_numba1 ⟨1, 1, [[0]]⟩ ⟨2, 1, [[0], [1]]⟩) 0 0
      ≠ computeEntry? (euclidean_numba1 ⟨2, 1, [[0], [1]]⟩ ⟨1, 1, [[0]]⟩) 0 0 := by
  decide

/-- C7 (amended): for rectangular inputs of equal feature dimension and
equal row counts, `euclidean_numba1` satisfies the swap-and-transpose
symmetry: entry (i, j) of compute(X, Y) equals entry (j, i) of
compute(Y, X), for all indices, in-range or not. -/
theorem C7_amended (x y : Arr2) (hx : IsArr x) (hy : IsArr y)
    (hc : x.cols = y.cols) (hr : x.rows = y.rows) (i j : Nat) :
    computeEntry? (euclidean_numba1 x y) i j
      = computeEntry? (euclidean_numba1 y x) j i := by
  rw [computeEntry?, computeEntry?,
    numba1_eq_distMat hx hy (le_of_eq hc) (le_of_eq hr),
    numba1_eq_distMat hy hx (le_of_eq hc.symm) (le_of_eq hr.symm),
    Option.some_bind, Option.some_bind, getE?_distMat, getE?_distMat, ← hr]
  by_cases hij : i < x.rows ∧ j < x.rows
  · rw [if_pos hij, if_pos ⟨hij.2, hij.1⟩, sqDistSpec_symm hc]
  · rw [if_neg hij, if_neg fun hcon => hij ⟨hcon.2, hcon.1⟩]

/-- C7, witness: two distinct 2×2 inputs, entries (0, 1) and (1, 0). -/
theorem C7_witness :
    computeEntry? (euclidean_numba1 ⟨2, 2, [[0, 0], [3, 4]]⟩
        ⟨2, 2, [[1, 1], [5, 5]]⟩) 0 1
      = computeEntry? (euclidean_numba1 ⟨2, 2, [[1, 1], [5, 5]]⟩
        ⟨2, 2, [[0, 0], [3, 4]]⟩) 1 0 :=
  C7_amended _ _ (by decide) (by decide) (by decide) (by decide) 0 1

/-- C8: for rectangular X, compute(X, X) is symmetric and has a zero
diagonal, exactly, for both `euclidean_numba1` and `euclidean_numpy`. -/
theorem C8_diag_symm (x : Arr2) (hx : IsArr x) (i j : Nat) :
    (i < x.rows →
      computeEntry? (euclidean_numba1 x x) i i = some 0
      ∧ computeEntry? (euclidean_numpy x x) i i = some 0)
    ∧ computeEntry? (euclidean_numba1 x x) i j
        = computeEntry? (euclidean_numba1 x x) j i
    ∧ computeEntry? (euclidean_numpy x x) i j
        = computeEntry? (euclidean_numpy x x) j i := by
  have h1 : euclidean_numba1 x x = some (distMat x x) :=
    numba1_eq_distMat hx hx (le_refl _) (le_refl _)
  have h2 : euclidean_numpy x x = some (distMat x x) :=
    numpy_eq_canon hx hx rfl
  have hsymm : ∀ i j : Nat, computeEntry? (some (distMat x x)) i j
      = computeEntry? (some (distMat x x)) j i := by
    intro i j
    rw [computeEntry?, computeEntry?, Option.some_bind, Option.some_bind,
      getE?_distMat, getE?_distMat]
    by_cases hij : i < x.rows ∧ j < x.rows
    · rw [if_pos hij, if_pos ⟨hij.2, hij.1⟩, sqDistSpec_symm rfl]
    · rw [if_neg hij, if_neg fun hcon => hij ⟨hcon.2, hcon.1⟩]
  refine ⟨fun hi => ?_, ?_, ?_⟩
  · rw [h1, h2]
    constructor
    · rw [computeEntry?, Option.some_bind, getE?_distMat, if_pos ⟨hi, hi⟩,
        sqDistSpec_self]
    · rw [computeEntry?, Option.some_bind, getE?_distMat, if_pos ⟨hi, hi⟩,
        sqDistSpec_self]
  · rw [h1]; exact hsymm i j
  · rw [h2]; exact hsymm i j

/-- C8, witness at X = [[0,0],[3,4]], indices 0 and 1. -/
theorem C8_witness :
    ((0 : Nat) < 2 →
      computeEntry? (euclidean_numba1 ⟨2, 2, [[0, 0], [3, 4]]⟩
        ⟨2, 2, [[0, 0], [3, 4]]⟩) 0 0 = some 0
      ∧ computeEntry? (euclidean_numpy ⟨2, 2, [[0, 0], [3, 4]]⟩
        ⟨2, 2, [[0, 0], [3, 4]]⟩) 0 0 = some 0)
    ∧ computeEntry? (euclidean_numba1 ⟨2, 2, [[0, 0], [3, 4]]⟩
        ⟨2, 2, [[0, 0], [3, 4]]⟩) 0 1
        = computeEntry? (euclidean_numba1 ⟨2, 2, [[0, 0], [3, 4]]⟩
        ⟨2, 2, [[0, 0], [3, 4]]⟩) 1 0
    ∧ computeEntry? (euclidean_numpy ⟨2, 2, [[0, 0], [3, 4]]⟩
        ⟨2, 2, [[0, 0], [3, 4]]⟩) 0 1
        = computeEntry? (euclidean_numpy ⟨2, 2, [[0, 0], [3, 4]]⟩
        ⟨2, 2, [[0, 0], [3, 4]]⟩) 1 0 :=
  C8_diag_symm ⟨2, 2, [[0, 0], [3, 4]]⟩ (by decide) 0 1

/-- C9: when Y has strictly more rows than X (equal feature dimension,
rectangular inputs), both loop implementations return the same result as for
Y truncated to its first rows(X) rows, and both succeed: the extra rows of Y
are silently ignored and never cause an error, because the loop bounds and
the output allocation are taken from `x.shape` alone. -/
theorem C9_truncate (x y : Arr2) (hx : IsArr x) (hy : IsArr y)
    (hc : x.cols = y.cols) (hr : x.rows < y.rows) :
    euclidean_numba1 x y = euclidean_numba1 x ⟨x.rows, y.cols, y.data.take x.rows⟩
    ∧ euclidean_numba2 x y = euclidean_numba2 x ⟨x.rows, y.cols, y.data.take x.rows⟩
    ∧ (euclidean_numba1 x y).isSome ∧ (euclidean_numba2 x y).isSome := by
  have hyt : IsArr ⟨x.rows, y.cols, y.data.take x.rows⟩ := by
    refine ⟨?_, fun r hrr => hy.2 r (List.mem_of_mem_take hrr)⟩
    show (y.data.take x.rows).length = x.rows
    rw [List.length_take, hy.1]
    omega
  have hdm : distMat x ⟨x.rows, y.cols, y.data.take x.rows⟩ = distMat x y := by
    rw [distMat, distMat]
    refine congrArg _ (List.map_congr_left fun i _ => List.map_congr_left fun j hj => ?_)
    rw [List.mem_range] at hj
    exact sqDistSpec_take x y hj i
  constructor
  · rw [numba1_eq_distMat hx hy (le_of_eq hc) (le_of_lt hr),
      numba1_eq_distMat hx hyt (le_of_eq hc) (le_refl _), hdm]
  refine ⟨?_, ?_, ?_⟩
  · rw [numba2_eq_distMat hx hy hc (le_of_lt hr),
      numba2_eq_distMat hx hyt hc (le_refl _), hdm]
  · rw [numba1_eq_distMat hx hy (le_of_eq hc) (le_of_lt hr)]; rfl
  · rw [numba2_eq_distMat hx hy hc (le_of_lt hr)]; rfl

/-- C9, witness: X of shape (1, 2), Y of shape (2, 2). -/
theorem C9_witness :
    euclidean_numba1 ⟨1, 2, [[0, 1]]⟩ ⟨2, 2, [[1, 1], [5, 5]]⟩
      = euclidean_numba1 ⟨1, 2, [[0, 1]]⟩
        ⟨1, 2, ([[1, 1], [5, 5]] : List (List ℚ)).take 1⟩
    ∧ euclidean_numba2 ⟨1, 2, [[0, 1]]⟩ ⟨2, 2, [[1, 1], [5, 5]]⟩
      = euclidean_numba2 ⟨1, 2, [[0, 1]]⟩
        ⟨1, 2, ([[1, 1], [5, 5]] : List (List ℚ)).take 1⟩
    ∧ (euclidean_numba1 ⟨1, 2, [[0, 1]]⟩ ⟨2, 2, [[1, 1], [5, 5]]⟩).isSome
    ∧ (euclidean_numba2 ⟨1, 2, [[0, 1]]⟩ ⟨2, 2, [[1, 1], [5, 5]]⟩).isSome :=
  C9_truncate _ _ (by decide) (by decide) (by decide) (by decide)

/-- C10: on rectangular inputs, when Y has at least as many rows as X and
the feature dimensions agree, every array index access in both loop
implementations is in bounds — the error branch of the `Option` embedding is
unreachable and both return a result; when Y has fewer rows than X this
in-bounds guarantee fails: `euclidean_numba2` reads row Y[j] for j up to
rows(X) − 1 and goes out of bounds, making its result `none`. -/
theorem C10_bounds (x y : Arr2) (hx : IsArr x) (hy : IsArr y) :
    (x.cols = y.cols → x.rows ≤ y.rows →
      (euclidean_numba1 x y).isSome ∧ (euclidean_numba2 x y).isSome)
    ∧ (y.rows < x.rows → (euclidean_numba2 x y).isNone) := by
  constructor
  · intro hc hr
    rw [numba1_eq_distMat hx hy (le_of_eq hc) hr, numba2_eq_distMat hx hy hc hr]
    exact ⟨rfl, rfl⟩
  · intro hr
    rw [numba2_eq_none hx hy hr]
    rfl

/-- C10, witness: X of shape (2, 2) and Y of shape (1, 2); the second
conjunct fires (Y has fewer rows), and the first is vacuous there. -/
theorem C10_witness :
    (((⟨2, 2, [[0, 0], [3, 4]]⟩ : Arr2).cols = (⟨1, 2, [[1, 1]]⟩ : Arr2).cols →
      (⟨2, 2, [[0, 0], [3, 4]]⟩ : Arr2).rows ≤ (⟨1, 2, [[1, 1]]⟩ : Arr2).rows →
      (euclidean_numba1 ⟨2, 2, [[0, 0], [3, 4]]⟩ ⟨1, 2, [[1, 1]]⟩).isSome
      ∧ (euclidean_numba2 ⟨2, 2, [[0, 0], [3, 4]]⟩ ⟨1, 2, [[1, 1]]⟩).isSome)
    ∧ ((⟨1, 2, [[1, 1]]⟩ : Arr2).rows < (⟨2, 2, [[0, 0], [3, 4]]⟩ : Arr2).rows →
      (euclidean_numba2 ⟨2, 2, [[0, 0], [3, 4]]⟩ ⟨1, 2, [[1, 1]]⟩).isNone)) :=
  C10_bounds _ _ (by decide) (by decide)

end EDM
